import Mathlib

/-!
Verification of the authenticate-then-paginate-then-correlate pipeline of the
Coverity-on-Polaris automation scripts.

The JavaScript sources are shallowly embedded as executable Lean definitions:

* JS strings are Lean `String`s; the handful of JS string-library functions the
  scripts use (`trim`, `toLowerCase`, `split`, `startsWith`) are embedded as
  functions on the underlying character list, mirroring their JS semantics.
* JS objects used as dictionaries (keyed by project id or group id, with
  insertion-order key enumeration) are embedded as association lists where an
  assignment to an existing key updates the entry in place and an assignment to
  a fresh key appends it.
* `axios` calls are embedded by passing in the outcome of each request
  explicitly.  A request either delivers a response (a status code plus decoded
  body) to the calling code, or throws (as axios does for transport failures
  and, under its default configuration, for non-2xx statuses); a thrown error
  propagates to the nearest enclosing try/catch.
* Fallible code returns `Except`/`Option`; the driver functions never perform
  IO here, the file contents they would write are the returned values.
-/

namespace Polaris

/-! ## Embedded JS string-library functions -/

/-- Embeds the JS `String.prototype.trim`: strip leading and trailing
whitespace. -/
def jsTrim (s : String) : String :=
  String.mk (((s.data.dropWhile Char.isWhitespace).reverse.dropWhile
    Char.isWhitespace).reverse)

/-- Embeds the JS `String.prototype.toLowerCase` (ASCII case folding, which is
all the scripts compare). -/
def jsToLower (s : String) : String :=
  String.mk (s.data.map Char.toLower)

/-- Embeds the JS `String.prototype.split` with a one-character separator, on
the character list of the string: `"a=b".split` at the separator yields the
chunks between separator occurrences, with an empty chunk for the empty
string. -/
def splitOnChar (sep : Char) : List Char → List (List Char)
  | [] => [[]]
  | c :: rest =>
    let r := splitOnChar sep rest
    if c = sep then [] :: r
    else
      match r with
      | [] => [[c]]
      | s :: ss => (c :: s) :: ss

/-- Truthiness of a JS value that is either `undefined` (`none`) or a string:
`undefined` and the empty string are falsy. -/
def jsFalsy : Option (List Char) → Bool
  | none => true
  | some s => s.isEmpty

/-! ## Credential Resolver

Embeds the authentication branch shared by all four scripts (for instance
`src/unnamed/part_000` lines 132-170): if `config.password` is truthy and
nonempty after trimming, a form body with `email` and `password` is POSTed to
the password-flow endpoint; otherwise, if `config.accesstoken` is truthy and
nonempty after trimming, a form body with `email` and `accesstoken` is POSTed
to the token-flow endpoint; otherwise the script throws before any request. -/

/-- Configuration record, the credential-relevant fields of `config.json`.
Absent fields are embedded as the empty string, which is JS-falsy exactly like
`undefined` under the guards the source uses. -/
structure Config where
  email : String
  password : String
  accesstoken : String
deriving DecidableEq

/-- The two authentication endpoints (`authUrl` and `authUrlV2` in the
source). -/
inductive AuthEndpoint where
  | passwordFlow
  | tokenFlow
deriving DecidableEq

/-- A POST to an authentication endpoint with its form-encoded body (the
`URLSearchParams` entries in append order). -/
structure AuthRequest where
  endpoint : AuthEndpoint
  formData : List (String × String)
deriving DecidableEq

/-- Embeds the credential-selection conditional: the source lines 135-170 of
`src/unnamed/part_000` (identical in the other scripts).  The error case is the
`throw new Error` of line 169. -/
def buildAuthRequest (cfg : Config) : Except String AuthRequest :=
  if cfg.password != "" && jsTrim cfg.password != "" then
    Except.ok { endpoint := AuthEndpoint.passwordFlow
                formData := [("email", cfg.email), ("password", cfg.password)] }
  else if cfg.accesstoken != "" && jsTrim cfg.accesstoken != "" then
    Except.ok { endpoint := AuthEndpoint.tokenFlow
                formData := [("email", cfg.email), ("accesstoken", cfg.accesstoken)] }
  else
    Except.error "Neither password nor access token is provided in the config."

/-- The authentication requests a run issues during credential resolution: one
POST when a credential was selected, none when the script threw first. -/
def authRequests (cfg : Config) : List AuthRequest :=
  match buildAuthRequest cfg with
  | Except.ok r => [r]
  | Except.error _ => []

/-! ## Project formatting (C8)

Embeds `src/unnamed/part_000` lines 227-233: each remote project of a page is
mapped to the record written to `projectList.json`. -/

/-- A project resource as delivered by the project-listing endpoint:
`id`, `attributes.type`, `attributes.name`, `attributes.properties` (a
key-to-value mapping, embedded as an association list in key order) and
`relationships.branches.links.related`. -/
structure RemoteProject where
  id : String
  type : String
  name : String
  properties : List (String × String)
  branchesRelated : String
deriving DecidableEq

/-- The formatted record the script builds for one project. -/
structure FormattedProject where
  id : String
  type : String
  properties : List (String × String)
  name : String
  branches : String
deriving DecidableEq

/-- Embeds the mapping function of lines 227-233: `properties` falls back to
the placeholder pair when `Object.keys(project.attributes.properties).length`
is zero (JS-falsy); the other fields are copied. -/
def formatProject (p : RemoteProject) : FormattedProject :=
  { id := p.id
    type := p.type
    properties := if p.properties.length != 0 then p.properties else [("key", "value")]
    name := p.name
    branches := p.branchesRelated }

/-! ## Paginator (C1, C4)

Embeds the pagination loops.  `fetchProjectPages` is the project loop of
`src/unnamed/part_000` lines 199-244: starting at offset 0, it issues a GET
per iteration, appends `data.data` to the accumulator and advances the offset
by the page size while the page is exactly full; a delivered non-200 status is
logged and ends the loop with the accumulator kept (the run then writes its
output files), while a thrown request error propagates to the outer catch,
aborting the run with nothing written.  `fetchBranchPages` is the branch loop
of `src/src/setProjectProperties.mjs` lines 296-335, whose body wraps the
request in its own try/catch: both a delivered non-200 status and a thrown
error merely end the loop, keeping the accumulator, and the run continues. -/

/-- Outcome of one axios request as observed by the calling code: either a
response is delivered (status code plus the decoded `data.data` items), or the
call throws (transport failure, or a non-2xx status under the default axios
configuration) and the error propagates to the nearest enclosing try/catch. -/
inductive FetchResult (α : Type) where
  | resp (status : Nat) (items : List α)
  | thrown
deriving DecidableEq

/-- Embeds the project pagination loop of `src/unnamed/part_000` lines
206-244, driven by the list of request outcomes the endpoint produces in
arrival order.  The result records the accumulated items and the offsets of
the GET requests issued; `Except.error` means the loop threw and the run
aborted before writing any output; `none` means the supplied outcome list ran
out while the loop still wanted another page (the model cannot answer). -/
def fetchProjectPages {α : Type} (limit : Nat) (offset : Nat) (acc : List α)
    (reqs : List Nat) : List (FetchResult α) → Option (Except Unit (List α × List Nat))
  | [] => none
  | FetchResult.resp status items :: rest =>
    let reqs2 := reqs ++ [offset]
    if status = 200 then
      let acc2 := acc ++ items
      if items.length = limit then
        fetchProjectPages limit (offset + limit) acc2 reqs2 rest
      else some (Except.ok (acc2, reqs2))
    else some (Except.ok (acc, reqs2))
  | FetchResult.thrown :: _ => some (Except.error ())

/-- Embeds the branch pagination loop of `src/src/setProjectProperties.mjs`
lines 302-335 (page size hard-coded to 500, request wrapped in try/catch so
that every failure just ends the loop with the accumulator kept). -/
def fetchBranchPages {α : Type} (offset : Nat) (acc : List α) :
    List (FetchResult α) → Option (List α)
  | [] => none
  | FetchResult.resp status items :: rest =>
    if status = 200 then
      let acc2 := acc ++ items
      if items.length = 500 then fetchBranchPages (offset + 500) acc2 rest
      else some acc2
    else some acc
  | FetchResult.thrown :: _ => some acc

/-! ## Token extraction (C5)

Embeds `src/unnamed/part_000` lines 177-194 (identical in the other
scripts): the bearer token is taken from the first `set-cookie` entry starting
with `access_token=` as field 1 of `tokenCookie.split(s) // [0].split(q)` with
separators `;` then `=`; a falsy candidate falls back to the `jwt` field of
the response body; if that too is falsy the script throws.  Header values are
embedded as character lists so the split semantics are explicit. -/

/-- The character list of the cookie marker `access_token=`. -/
def accessTokenMarker : List Char := "access_token=".toList

/-- Embeds the cookie lookup of lines 180-186: find the first `set-cookie`
entry starting with `access_token=`; the candidate token is element 1 of the
entry split at `;`, then element 0 of that split at `=` — `none` when no entry
matches (the JS `undefined`). -/
def cookieToken (cookies : List (List Char)) : Option (List Char) :=
  match cookies.find? (fun c => accessTokenMarker.isPrefixOf c) with
  | none => none
  | some c => (splitOnChar '=' ((splitOnChar ';' c).headD []))[1]?

/-- Embeds the whole extraction of lines 177-194, with the `jwt` body
fallback of line 188 and the final guard of line 192: a `none` or empty
candidate is JS-falsy and triggers the fallback; when both candidates are
falsy the script throws. -/
def extractToken (setCookie : Option (List (List Char)))
    (jwt : Option (List Char)) : Except String (List Char) :=
  let tok0 : Option (List Char) :=
    match setCookie with
    | none => none
    | some cookies => cookieToken cookies
  let tok1 : Option (List Char) :=
    if jsFalsy tok0 && !jsFalsy jwt then jwt else tok0
  if jsFalsy tok1 then Except.error "No access token found in the response."
  else Except.ok (tok1.getD [])

/-- Follows the words of the C5 claim: the token is the substring of the
cookie entry between `access_token=` and the next `;`. -/
def claimCookieToken (entry : List Char) : List Char :=
  (entry.drop accessTokenMarker.length).takeWhile (fun c => c != ';')

/-- Follows the amended C5 claim: the token is the substring of the cookie
entry between `access_token=` and the next `=` or `;`, whichever comes
first. -/
def amendedCookieToken (entry : List Char) : List Char :=
  ((entry.takeWhile (fun c => c != ';')).drop
    accessTokenMarker.length).takeWhile (fun c => c != '=')

/-! ## Run driver prompts (C9)

Embeds the output-file checks that open every driver
(`src/unnamed/part_000` lines 77-119, `deleteFileIfExists` of
`src/src/getProjectUserInformation.mjs` lines 90-109): for each declared
output path in order, if the file exists the operator is prompted; a
non-affirmative answer makes the script return at once, an affirmative answer
deletes the file and checking continues.  All of this happens before the
config is read and before any network request. -/

/-- Embeds the affirmative-answer test
`['yes', 'y'].includes(answer.toLowerCase())`. -/
def isAffirmative (answer : String) : Bool :=
  (["yes", "y"] : List String).contains (jsToLower answer)

/-- Embeds the sequence of existence checks and prompts.  Each entry is
(file exists, the answer the operator would give, file path); the result is
the list of paths actually deleted, in deletion order, paired with `true` when
the run proceeds past the checks (config read, authentication, fetches) and
`false` when the script returned at a refused prompt.  A `false` outcome means
zero network requests, since every request happens after these checks. -/
def checkExisting : List (Bool × String × String) → List String × Bool
  | [] => ([], true)
  | (present, answer, path) :: rest =>
    if present then
      if isAffirmative answer then
        let r := checkExisting rest
        (path :: r.1, r.2)
      else ([], false)
    else checkExisting rest

/-! ## Correlator: projects to branches (C6)

Embeds `associateProjectsToBranches` of `src/src/setProjectProperties.mjs`
lines 360-393: a reduce builds a JS object mapping each project id to
`{name, branches: []}`; a forEach then looks up each branch by its owning
project id and pushes the branch name, silently skipping branches whose
project id is not a key of the map. -/

/-- A record of `projectList.json` as the correlator reads it back (id and
display name). -/
structure ProjectRec where
  id : String
  name : String
deriving DecidableEq

/-- A branch resource of `branchesList.json`: `attributes.name` and
`relationships.project.data.id`. -/
structure BranchRec where
  name : String
  projectId : String
deriving DecidableEq

/-- The value stored under a project id in the correlation map. -/
structure ProjEntry where
  name : String
  branches : List String
deriving DecidableEq

/-- Embeds assignment to a JS object used as a dictionary: `map[k] = v`
updates the entry in place when the key exists and appends it otherwise (JS
objects enumerate string keys in insertion order). -/
def objInsert {κ β : Type} [DecidableEq κ] (m : List (κ × β)) (k : κ) (v : β) :
    List (κ × β) :=
  if m.any (fun kv => kv.1 = k) then
    m.map (fun kv => if kv.1 = k then (kv.1, v) else kv)
  else m ++ [(k, v)]

/-- Embeds key lookup in a JS object used as a dictionary (`none` is the JS
`undefined`). -/
def objGet {κ β : Type} [DecidableEq κ] (k : κ) : List (κ × β) → Option β
  | [] => none
  | kv :: rest => if kv.1 = k then some kv.2 else objGet k rest

/-- Embeds the reduce of lines 371-374:
`map[project.id] = (name: project.name, branches: [])`. -/
def buildProjectMap (projects : List ProjectRec) : List (String × ProjEntry) :=
  projects.foldl (fun m p => objInsert m p.id ⟨p.name, []⟩) []

/-- Embeds the forEach body of lines 377-382: when the owning project id is a
key of the map, push the branch name onto its entry; otherwise leave the map
unchanged (the branch is dropped). -/
def appendBranch (m : List (String × ProjEntry)) (b : BranchRec) :
    List (String × ProjEntry) :=
  m.map (fun kv => if kv.1 = b.projectId then
    (kv.1, ⟨kv.2.name, kv.2.branches ++ [b.name]⟩) else kv)

/-- Embeds `associateProjectsToBranches` up to the point the correlated map is
complete: build the project map, then fold the branch list into it. -/
def associateProjectsToBranches (projects : List ProjectRec)
    (branches : List BranchRec) : List (String × ProjEntry) :=
  branches.foldl appendBranch (buildProjectMap projects)

/-! ## CSV exporter (C7)

Embeds the CSV preparation of `src/src/setProjectProperties.mjs` lines
384-399: each map entry becomes an object with a `projectName` key and one
`branchName(i+1)` key per branch; the json2csv field list is `projectName`
followed by `branchName1 .. branchNameM` where `M` is
`Math.max(...csvData.map(p => Object.keys(p).length - 1))`; a record lacking
a listed field leaves that row cell blank. -/

/-- A CSV field name of `projectBranches.csv`: the JS string key
`projectName`, or the dynamic key `branchName` followed by a decimal index
(embedded as the index itself, the JS keys being in bijection with it). -/
inductive CsvField where
  | projectName
  | branchName (i : Nat)
deriving DecidableEq

/-- One element of the csvData array of lines 385-393: the project name plus
the spread of the branch-name fields. -/
structure CsvRec where
  projectName : String
  branches : List String
deriving DecidableEq

/-- The key-value pairs of one csvData object in insertion order:
`projectName`, then `branchName(index+1)` for each branch (lines 385-393). -/
def recordFields (r : CsvRec) : List (CsvField × String) :=
  (CsvField.projectName, r.projectName) ::
    r.branches.enum.map (fun p => (CsvField.branchName (p.1 + 1), p.2))

/-- Embeds `Math.max(...)` applied to the per-record key counts minus one;
`none` embeds the JS negative infinity produced on an empty csvData array. -/
def mathMaxFieldCounts (rs : List CsvRec) : Option Nat :=
  match rs.map (fun r => (recordFields r).length - 1) with
  | [] => none
  | n :: ns => some (ns.foldl max n)

/-- Embeds the `fields` array of line 397: `projectName` followed by
`branchName1` to `branchNameM`; `Array.from` of a negative-infinity length
yields the empty array, which `getD 0` reproduces. -/
def csvFields (rs : List CsvRec) : List CsvField :=
  CsvField.projectName ::
    (List.range ((mathMaxFieldCounts rs).getD 0)).map
      (fun i => CsvField.branchName (i + 1))

/-- Embeds the row json2csv emits for one record under a field list: the cell
of a field the record lacks is left blank. -/
def csvRow (fields : List CsvField) (r : CsvRec) : List String :=
  fields.map (fun f => (objGet f (recordFields r)).getD "")

/-- Follows the words of the C7 claim: the maximum number of branch fields
over all records of the collection. -/
def maxBranches (rs : List CsvRec) : Nat :=
  (rs.map (fun r => r.branches.length)).foldl max 0

/-! ## Users, groups, and per-project details (C3, C10)

Embeds `src/src/getProjectUserInformation.mjs`: the account-wide paginated
/users fetch yields user records with their group-id lists (lines 244-262);
lines 264-272 invert that relation into a map from group id to that group
member users; the per-project loop of lines 277-324 fetches each project role
assignments, partitions the `included` resources by type and builds the
exported detail record.  `src/src/setProjectProperties.mjs` lines 122-156 are
the per-project property-set loop, whose request sits in its own
try/catch. -/

/-- A formatted user of the account-wide /users fetch (lines 247-252): id,
name, email and the ids of `relationships.groups.data` in response order. -/
structure UserRec where
  id : String
  name : String
  email : String
  groupIds : List String
deriving DecidableEq

/-- Embeds one step of lines 265-271: create `allGroups[groupId]` on demand,
then `allGroups[groupId].push(user)`. -/
def pushGroup (m : List (String × List UserRec)) (gid : String) (u : UserRec) :
    List (String × List UserRec) :=
  if m.any (fun kv => kv.1 = gid) then
    m.map (fun kv => if kv.1 = gid then (kv.1, kv.2 ++ [u]) else kv)
  else m ++ [(gid, [u])]

/-- Embeds the double loop of lines 264-272 building the account-wide map
from group id to the users belonging to that group. -/
def buildAllGroups (users : List UserRec) : List (String × List UserRec) :=
  users.foldl
    (fun m u => u.groupIds.foldl (fun m gid => pushGroup m gid u) m) []

/-- A resource of the `included` array of one role-assignments response,
embedded flat: `rtype` is `item.type` (`users` or `groups`); `name` and
`email` are the user attributes, `groupname` the group attribute; `groupsData`
is the id list of the user `relationships.groups.data`. -/
structure IncludedRes where
  rtype : String
  id : String
  name : String
  email : String
  groupname : String
  groupsData : List String
deriving DecidableEq

/-- One entry of the per-project user list of lines 296-302; `groupId` embeds
`user.relationships.groups.data[0]?.id || 'N/A'` (an absent or falsy first
group id defaults to `N/A`). -/
structure ProjUser where
  projectId : String
  projectName : String
  userName : String
  userEmail : String
  groupId : String
deriving DecidableEq

/-- The value stored under a group id in the per-project `groups` object of
lines 304-311. -/
structure GroupMembers where
  groupName : String
  members : List UserRec
deriving DecidableEq

/-- The detail record pushed per project (lines 315-320); `individualUsers`
keeps (name, email) pairs. -/
structure ProjectDetail where
  projectId : String
  projectName : String
  groups : List (String × GroupMembers)
  individualUsers : List (String × String)
deriving DecidableEq

/-- Embeds the 200 branch of the per-project loop (lines 294-320): partition
`included` by resource type, compute each user `groupId` with the `N/A`
default, key the group resources by id carrying the account-wide member list
`allGroups[group.id] || []`, and collect the ungrouped users as
individuals. -/
def mkProjectDetail (allGroups : List (String × List UserRec))
    (p : ProjectRec) (included : List IncludedRes) : ProjectDetail :=
  let groups := included.filter (fun item => item.rtype = "groups")
  let users := (included.filter (fun item => item.rtype = "users")).map
    (fun u => ({ projectId := p.id
                 projectName := p.name
                 userName := u.name
                 userEmail := u.email
                 groupId := match u.groupsData.head? with
                   | some gid => if gid = "" then "N/A" else gid
                   | none => "N/A" } : ProjUser))
  let groupMembers := groups.foldl
    (fun m g => objInsert m g.id
      { groupName := g.groupname
        members := (objGet g.id allGroups).getD [] }) []
  let individualUsers := users.filter (fun u => u.groupId = "N/A")
  { projectId := p.id
    projectName := p.name
    groups := groupMembers
    individualUsers := individualUsers.map (fun u => (u.userName, u.userEmail)) }

/-- Embeds the per-project role-assignments loop of
`src/src/getProjectUserInformation.mjs` lines 277-324, which has no inner
try/catch: a delivered 200 response appends the detail record, a delivered
non-200 status is only logged and the project contributes nothing, and a
thrown request error propagates to the outer catch, aborting the run before
`projectDetails.csv` is written (`Except.error`). -/
def collectProjectDetails (allGroups : List (String × List UserRec))
    (fetch : String → FetchResult IncludedRes) :
    List ProjectRec → Except Unit (List ProjectDetail)
  | [] => Except.ok []
  | p :: ps =>
    match fetch p.id with
    | FetchResult.resp s included =>
        if s = 200 then
          (collectProjectDetails allGroups fetch ps).map
            (fun rest => mkProjectDetail allGroups p included :: rest)
        else collectProjectDetails allGroups fetch ps
    | FetchResult.thrown => Except.error ()

/-- Embeds the per-project property-set loop of
`src/src/setProjectProperties.mjs` lines 122-156: each POST sits in its own
try/catch, so every outcome — 200, delivered non-200, or thrown error — is
only logged and the loop continues with the next project.  The returned list
logs one entry per project in order, `true` exactly on a 200 response. -/
def setPropertiesLoop (postOutcome : String → FetchResult Unit) :
    List FormattedProject → List (String × Bool)
  | [] => []
  | p :: ps =>
    let ok := match postOutcome p.id with
      | FetchResult.resp s _ => s == 200
      | FetchResult.thrown => false
    (p.id, ok) :: setPropertiesLoop postOutcome ps

/-! ## Lemmas -/

theorem jsTrim_empty : jsTrim "" = "" := rfl

theorem ne_empty_of_jsTrim_ne {s : String} (h : jsTrim s ≠ "") : s ≠ "" := by
  intro he
  subst he
  exact h jsTrim_empty

theorem takeWhile_append_all {α : Type} (p : α → Bool) :
    ∀ (a b : List α), (∀ c ∈ a, p c = true) →
      (a ++ b).takeWhile p = a ++ b.takeWhile p
  | [], _, _ => rfl
  | x :: a, b, h => by
      have hx : p x = true := h x (List.mem_cons_self _ _)
      simp [List.takeWhile_cons, hx,
        takeWhile_append_all p a b (fun c hc => h c (List.mem_cons_of_mem _ hc))]

theorem dropWhile_append_all {α : Type} (p : α → Bool) :
    ∀ (a b : List α), (∀ c ∈ a, p c = true) →
      (a ++ b).dropWhile p = b.dropWhile p
  | [], _, _ => rfl
  | x :: a, b, h => by
      have hx : p x = true := h x (List.mem_cons_self _ _)
      simp [List.dropWhile_cons, hx,
        dropWhile_append_all p a b (fun c hc => h c (List.mem_cons_of_mem _ hc))]

theorem splitOnChar_ne_nil (sep : Char) : ∀ l : List Char, splitOnChar sep l ≠ []
  | [] => by simp [splitOnChar]
  | c :: rest => by
      by_cases hc : c = sep
      · simp [splitOnChar, hc]
      · cases hr : splitOnChar sep rest with
        | nil => simp [splitOnChar, hc, hr]
        | cons s ss => simp [splitOnChar, hc, hr]

theorem splitOnChar_headD (sep : Char) :
    ∀ l : List Char,
      (splitOnChar sep l).headD [] = l.takeWhile (fun c => c != sep)
  | [] => by simp [splitOnChar]
  | c :: rest => by
      by_cases hc : c = sep
      · simp [splitOnChar, hc, List.takeWhile_cons]
      · cases hr : splitOnChar sep rest with
        | nil => exact absurd hr (splitOnChar_ne_nil sep rest)
        | cons s ss =>
            have ih := splitOnChar_headD sep rest
            rw [hr] at ih
            simp only [List.headD_cons] at ih
            simp [splitOnChar, hc, hr, List.takeWhile_cons, ih]

theorem splitOnChar_getElem1 (sep : Char) :
    ∀ l : List Char,
      (splitOnChar sep l)[1]? =
        if l.any (fun c => c = sep) then
          some (((l.dropWhile (fun c => c != sep)).drop 1).takeWhile
            (fun c => c != sep))
        else none
  | [] => by simp [splitOnChar]
  | c :: rest => by
      by_cases hc : c = sep
      · cases hr : splitOnChar sep rest with
        | nil => exact absurd hr (splitOnChar_ne_nil sep rest)
        | cons s ss =>
            have ih := splitOnChar_headD sep rest
            rw [hr] at ih
            simp only [List.headD_cons] at ih
            subst hc
            simp [splitOnChar, hr, List.dropWhile_cons, ih]
      · cases hr : splitOnChar sep rest with
        | nil => exact absurd hr (splitOnChar_ne_nil sep rest)
        | cons s ss =>
            have ih := splitOnChar_getElem1 sep rest
            rw [hr] at ih
            simp only [List.getElem?_cons_succ, List.getElem?_cons_zero] at ih
            simp [splitOnChar, hc, hr, List.dropWhile_cons, List.any_cons, ih]

theorem cookieField_eq_amended (entry : List Char)
    (h : accessTokenMarker.isPrefixOf entry = true) :
    (splitOnChar '=' ((splitOnChar ';' entry).headD []))[1]? =
      some (amendedCookieToken entry) := by
  obtain ⟨t, ht⟩ := List.isPrefixOf_iff_prefix.mp h
  subst ht
  rw [splitOnChar_headD]
  have hmark : accessTokenMarker = "access_token".toList ++ ['='] := by decide
  have hsemi : ∀ c ∈ accessTokenMarker, (c != ';') = true := by decide
  rw [takeWhile_append_all _ _ _ hsemi]
  rw [splitOnChar_getElem1]
  have hany : (accessTokenMarker ++ t.takeWhile (fun c => c != ';')).any
      (fun c => c = '=') = true := by
    rw [List.any_append]
    have : accessTokenMarker.any (fun c => c = '=') = true := by decide
    simp [this]
  rw [if_pos hany]
  have hdropw : (accessTokenMarker ++ t.takeWhile (fun c => c != ';')).dropWhile
      (fun c => c != '=') = '=' :: t.takeWhile (fun c => c != ';') := by
    rw [hmark, List.append_assoc]
    rw [dropWhile_append_all _ _ _ (by decide)]
    simp [List.dropWhile_cons]
  rw [hdropw]
  have hlen : accessTokenMarker.length = 13 := by decide
  simp only [List.drop_succ_cons, List.drop_zero]
  unfold amendedCookieToken
  rw [takeWhile_append_all _ _ _ hsemi, hlen]
  have : (accessTokenMarker ++ t.takeWhile (fun c => c != ';')).drop 13 =
      t.takeWhile (fun c => c != ';') := by
    have := List.drop_left accessTokenMarker (t.takeWhile (fun c => c != ';'))
    rwa [hlen] at this
  rw [this]

theorem fetchProjectPages_ok_pages {α : Type} (limit : Nat) :
    ∀ (full : List (List α)) (offset : Nat) (acc : List α) (reqs : List Nat)
      (rest : List (FetchResult α)),
      (∀ pg ∈ full, pg.length = limit) →
      fetchProjectPages limit offset acc reqs
          (full.map (FetchResult.resp 200) ++ rest) =
        fetchProjectPages limit (offset + full.length * limit) (acc ++ full.flatten)
          (reqs ++ (List.range full.length).map (fun i => offset + i * limit)) rest
  | [], offset, acc, reqs, rest, _ => by simp
  | pg :: full, offset, acc, reqs, rest, h => by
      have hpg : pg.length = limit := h pg (List.mem_cons_self _ _)
      have ih := fetchProjectPages_ok_pages limit full (offset + limit) (acc ++ pg)
        (reqs ++ [offset]) rest (fun q hq => h q (List.mem_cons_of_mem _ hq))
      have step : fetchProjectPages limit offset acc reqs
          (FetchResult.resp 200 pg :: (full.map (FetchResult.resp 200) ++ rest)) =
          fetchProjectPages limit (offset + limit) (acc ++ pg) (reqs ++ [offset])
            (full.map (FetchResult.resp 200) ++ rest) := by
        simp [fetchProjectPages, hpg]
      rw [List.map_cons, List.cons_append, step, ih]
      congr 1
      · rw [List.length_cons, Nat.succ_mul]
        omega
      · simp
      · rw [List.length_cons, List.range_succ_eq_map, List.map_cons, List.map_map]
        simp [Nat.succ_mul, Nat.add_assoc, Nat.add_comm limit, Function.comp,
          Nat.succ_eq_add_one, Nat.add_mul, Nat.one_mul]

theorem fetchBranchPages_ok_pages {α : Type} :
    ∀ (full : List (List α)) (offset : Nat) (acc : List α)
      (rest : List (FetchResult α)),
      (∀ pg ∈ full, pg.length = 500) →
      fetchBranchPages offset acc (full.map (FetchResult.resp 200) ++ rest) =
        fetchBranchPages (offset + full.length * 500) (acc ++ full.flatten) rest
  | [], offset, acc, rest, _ => by simp
  | pg :: full, offset, acc, rest, h => by
      have hpg : pg.length = 500 := h pg (List.mem_cons_self _ _)
      have ih := fetchBranchPages_ok_pages full (offset + 500) (acc ++ pg) rest
        (fun q hq => h q (List.mem_cons_of_mem _ hq))
      have step : fetchBranchPages offset acc
          (FetchResult.resp 200 pg :: (full.map (FetchResult.resp 200) ++ rest)) =
          fetchBranchPages (offset + 500) (acc ++ pg)
            (full.map (FetchResult.resp 200) ++ rest) := by
        simp [fetchBranchPages, hpg]
      rw [List.map_cons, List.cons_append, step, ih]
      congr 1
      · rw [List.length_cons, Nat.succ_mul]
        omega
      · simp

theorem objGet_append {κ β : Type} [DecidableEq κ] (k : κ) :
    ∀ m m2 : List (κ × β),
      objGet k (m ++ m2) =
        match objGet k m with
        | some w => some w
        | none => objGet k m2
  | [], _ => rfl
  | kv :: m, m2 => by
      by_cases h : kv.1 = k <;> simp [objGet, h, objGet_append k m m2]

theorem objGet_map_self {κ β : Type} [DecidableEq κ] (k : κ) (v : β) :
    ∀ m : List (κ × β),
      objGet k (m.map (fun kv => if kv.1 = k then (kv.1, v) else kv)) =
        (objGet k m).map (fun _ => v)
  | [] => rfl
  | kv :: m => by
      by_cases h : kv.1 = k <;> simp [objGet, h, objGet_map_self k v m]

theorem objGet_map_other {κ β : Type} [DecidableEq κ] {k k2 : κ} (v : β)
    (hne : k2 ≠ k) :
    ∀ m : List (κ × β),
      objGet k2 (m.map (fun kv => if kv.1 = k then (kv.1, v) else kv)) =
        objGet k2 m
  | [] => rfl
  | kv :: m => by
      by_cases h : kv.1 = k
      · have h3 : ¬(k = k2) := fun he => hne he.symm
        simp [objGet, h, h3, objGet_map_other v hne m]
      · by_cases h2 : kv.1 = k2 <;>
          simp [objGet, h, h2, hne, objGet_map_other v hne m]

theorem objGet_eq_none_of_any_false {κ β : Type} [DecidableEq κ] (k : κ) :
    ∀ m : List (κ × β), m.any (fun kv => kv.1 = k) = false → objGet k m = none
  | [], _ => rfl
  | kv :: m, h => by
      simp only [List.any_cons, Bool.or_eq_false_iff] at h
      have h1 : kv.1 ≠ k := by simpa using h.1
      simp [objGet, h1, objGet_eq_none_of_any_false k m h.2]

theorem objGet_isSome_of_any {κ β : Type} [DecidableEq κ] (k : κ) :
    ∀ m : List (κ × β), m.any (fun kv => kv.1 = k) = true →
      (objGet k m).isSome = true
  | [], h => by simp at h
  | kv :: m, h => by
      by_cases h1 : kv.1 = k
      · simp [objGet, h1]
      · simp only [List.any_cons, Bool.or_eq_true_iff] at h
        have h2 : m.any (fun kv => kv.1 = k) = true := by
          rcases h with h | h
          · exact absurd (by simpa using h) h1
          · exact h
        simp [objGet, h1, objGet_isSome_of_any k m h2]

theorem objGet_insert_self {κ β : Type} [DecidableEq κ] (k : κ) (v : β)
    (m : List (κ × β)) : objGet k (objInsert m k v) = some v := by
  unfold objInsert
  by_cases hany : m.any (fun kv => kv.1 = k) = true
  · rw [if_pos hany, objGet_map_self]
    rcases Option.isSome_iff_exists.mp (objGet_isSome_of_any k m hany) with ⟨w, hw⟩
    rw [hw]
    rfl
  · have hany2 : m.any (fun kv => kv.1 = k) = false := by
      cases hb : m.any (fun kv => kv.1 = k) with
      | false => rfl
      | true => exact absurd hb hany
    rw [if_neg hany, objGet_append, objGet_eq_none_of_any_false k m hany2]
    simp [objGet]

theorem objGet_insert_other {κ β : Type} [DecidableEq κ] {k k2 : κ} (v : β)
    (hne : k2 ≠ k) (m : List (κ × β)) :
    objGet k2 (objInsert m k v) = objGet k2 m := by
  unfold objInsert
  by_cases hany : m.any (fun kv => kv.1 = k) = true
  · rw [if_pos hany, objGet_map_other v hne]
  · rw [if_neg hany, objGet_append]
    cases hob : objGet k2 m with
    | some w => rfl
    | none =>
        have h1 : ¬(k = k2) := fun h => hne h.symm
        simp [objGet, h1]

theorem mem_objInsert {κ β : Type} [DecidableEq κ] {kv2 : κ × β}
    (m : List (κ × β)) (k : κ) (v : β) (h : kv2 ∈ objInsert m k v) :
    kv2 ∈ m ∨ kv2 = (k, v) := by
  unfold objInsert at h
  by_cases hany : m.any (fun kv => kv.1 = k) = true
  · rw [if_pos hany] at h
    rcases List.mem_map.mp h with ⟨kv, hkv, hEq⟩
    by_cases h1 : kv.1 = k
    · rw [if_pos h1] at hEq
      right
      rw [← hEq, h1]
    · rw [if_neg h1] at hEq
      exact Or.inl (hEq ▸ hkv)
  · rw [if_neg hany] at h
    rcases List.mem_append.mp h with h2 | h2
    · exact Or.inl h2
    · right
      simpa using h2

theorem foldl_objInsert_mem {κ β γ : Type} [DecidableEq κ]
    (key : γ → κ) (val : γ → β) :
    ∀ (gs : List γ) (m : List (κ × β)) (kv : κ × β),
      kv ∈ gs.foldl (fun m g => objInsert m (key g) (val g)) m →
      kv ∈ m ∨ ∃ g ∈ gs, kv = (key g, val g)
  | [], _, _, h => Or.inl h
  | g :: gs, m, kv, h => by
      rcases foldl_objInsert_mem key val gs (objInsert m (key g) (val g)) kv h with
        h2 | ⟨g2, hg2, hkv⟩
      · rcases mem_objInsert _ _ _ h2 with h3 | h3
        · exact Or.inl h3
        · exact Or.inr ⟨g, List.mem_cons_self _ _, h3⟩
      · exact Or.inr ⟨g2, List.mem_cons_of_mem _ hg2, hkv⟩

theorem objGet_map_update {κ β : Type} [DecidableEq κ] (k gid : κ) (f : β → β) :
    ∀ m : List (κ × β),
      objGet k (m.map (fun kv => if kv.1 = gid then (kv.1, f kv.2) else kv)) =
        if gid = k then (objGet k m).map f else objGet k m
  | [] => by
      by_cases hk : gid = k <;> simp [objGet, hk]
  | kv :: m => by
      by_cases h1 : kv.1 = gid <;> by_cases h2 : kv.1 = k
      · have hk : gid = k := h1.symm.trans h2
        simp [objGet, h1, h2, hk, objGet_map_update k gid f m]
      · have hk : ¬(gid = k) := fun he => h2 (h1.trans he)
        simp [objGet, h1, h2, hk, objGet_map_update k gid f m]
      · have hk : ¬(gid = k) := fun he => h1 (h2.trans he.symm)
        have hk2 : ¬(k = gid) := fun he => hk he.symm
        simp [objGet, h1, h2, hk, hk2, objGet_map_update k gid f m]
      · simp [objGet, h1, h2, objGet_map_update k gid f m]

theorem objGet_pushGroup (k gid : String) (u : UserRec)
    (m : List (String × List UserRec)) :
    objGet k (pushGroup m gid u) =
      if gid = k then some ((objGet k m).getD [] ++ [u]) else objGet k m := by
  unfold pushGroup
  by_cases hany : m.any (fun kv => kv.1 = gid) = true
  · have hmap := objGet_map_update k gid (fun l => l ++ [u]) m
    simp only [] at hmap
    rw [if_pos hany, hmap]
    by_cases hk : gid = k
    · rw [if_pos hk, if_pos hk]
      subst hk
      rcases Option.isSome_iff_exists.mp (objGet_isSome_of_any gid m hany) with
        ⟨w, hw⟩
      rw [hw]
      rfl
    · rw [if_neg hk, if_neg hk]
  · have hany2 : m.any (fun kv => kv.1 = gid) = false := by
      cases hb : m.any (fun kv => kv.1 = gid) with
      | false => rfl
      | true => exact absurd hb hany
    rw [if_neg hany, objGet_append]
    by_cases hk : gid = k
    · subst hk
      rw [objGet_eq_none_of_any_false gid m hany2, if_pos rfl]
      simp [objGet]
    · rw [if_neg hk]
      cases hob : objGet k m with
      | some w => rfl
      | none => simp [objGet, hk]

theorem objGet_foldl_pushGroup (k : String) (u : UserRec) :
    ∀ (gids : List String) (m : List (String × List UserRec)),
      (objGet k (gids.foldl (fun m gid => pushGroup m gid u) m)).getD [] =
        (objGet k m).getD [] ++ List.replicate (gids.count k) u
  | [], m => by simp
  | gid :: gids, m => by
      rw [List.foldl_cons, objGet_foldl_pushGroup k u gids (pushGroup m gid u),
        objGet_pushGroup]
      by_cases hk : gid = k
      · subst hk
        simp [List.count_cons, List.replicate_succ]
      · simp [hk, List.count_cons, fun h => hk (eq_of_beq h)]

theorem objGet_buildAllGroups_aux (k : String) :
    ∀ (users : List UserRec) (m : List (String × List UserRec)),
      (objGet k (users.foldl
        (fun m u => u.groupIds.foldl (fun m gid => pushGroup m gid u) m) m)).getD [] =
        (objGet k m).getD [] ++
          users.flatMap (fun u => List.replicate (u.groupIds.count k) u)
  | [], m => by simp
  | u :: users, m => by
      rw [List.foldl_cons, objGet_buildAllGroups_aux k users _,
        objGet_foldl_pushGroup k u u.groupIds m]
      simp [List.append_assoc]

theorem flatMap_replicate_count_filter (k : String) :
    ∀ users : List UserRec, (∀ u ∈ users, u.groupIds.Nodup) →
      users.flatMap (fun u => List.replicate (u.groupIds.count k) u) =
        users.filter (fun u => k ∈ u.groupIds)
  | [], _ => rfl
  | u :: users, h => by
      have hnd : u.groupIds.Nodup := h u (List.mem_cons_self _ _)
      have ih := flatMap_replicate_count_filter k users
        (fun q hq => h q (List.mem_cons_of_mem _ hq))
      rw [List.flatMap_cons, List.filter_cons, ih]
      by_cases hmem : k ∈ u.groupIds
      · have hle : u.groupIds.count k ≤ 1 :=
          List.nodup_iff_count_le_one.mp hnd k
        have hpos : 0 < u.groupIds.count k := List.count_pos_iff.mpr hmem
        have hone : u.groupIds.count k = 1 := Nat.le_antisymm hle hpos
        simp [hone, hmem]
      · have hzero : u.groupIds.count k = 0 := List.count_eq_zero.mpr hmem
        simp [hzero, hmem]

theorem objGet_buildAllGroups (k : String) (users : List UserRec)
    (hnodup : ∀ u ∈ users, u.groupIds.Nodup) :
    (objGet k (buildAllGroups users)).getD [] =
      users.filter (fun u => k ∈ u.groupIds) := by
  unfold buildAllGroups
  rw [objGet_buildAllGroups_aux k users [],
    flatMap_replicate_count_filter k users hnodup]
  rfl

theorem mkProjectDetail_groups (allGroups : List (String × List UserRec))
    (p : ProjectRec) (included : List IncludedRes) :
    (mkProjectDetail allGroups p included).groups =
      (included.filter (fun item => item.rtype = "groups")).foldl
        (fun m g => objInsert m g.id
          { groupName := g.groupname
            members := (objGet g.id allGroups).getD [] }) [] := rfl

theorem objGet_appendBranch (k : String) (b : BranchRec) :
    ∀ m : List (String × ProjEntry),
      objGet k (appendBranch m b) =
        match objGet k m with
        | none => none
        | some e => some (if b.projectId = k then
            ⟨e.name, e.branches ++ [b.name]⟩ else e)
  | [] => rfl
  | kv :: m => by
      have hfst : (if kv.1 = b.projectId then
          (kv.1, (⟨kv.2.name, kv.2.branches ++ [b.name]⟩ : ProjEntry))
          else kv).1 = kv.1 := by
        by_cases h2 : kv.1 = b.projectId <;> simp [h2]
      by_cases h1 : kv.1 = k
      · by_cases h2 : kv.1 = b.projectId
        · have hbk : b.projectId = k := h2.symm.trans h1
          simp [appendBranch, objGet, h1, h2, hbk]
        · have hbk : ¬(b.projectId = k) := fun he => h2 (h1.trans he.symm)
          have h4 : ¬(k = b.projectId) := fun he => hbk he.symm
          simp [appendBranch, objGet, h1, h2, hbk, h4]
      · have ih := objGet_appendBranch k b m
        rw [appendBranch] at ih
        simp only [appendBranch, List.map_cons, objGet, hfst, h1, if_false]
        simpa [objGet, h1] using ih

theorem objGet_foldl_appendBranch (k : String) :
    ∀ (bs : List BranchRec) (m : List (String × ProjEntry)),
      objGet k (bs.foldl appendBranch m) =
        match objGet k m with
        | none => none
        | some e => some ⟨e.name, e.branches ++
            (bs.filter (fun b => b.projectId = k)).map (fun b => b.name)⟩
  | [], m => by
      rw [List.foldl_nil]
      cases hob : objGet k m with
      | none => rfl
      | some e =>
          cases e
          simp
  | b :: bs, m => by
      rw [List.foldl_cons, objGet_foldl_appendBranch k bs (appendBranch m b),
        objGet_appendBranch k b m]
      cases hob : objGet k m with
      | none => rfl
      | some e =>
          by_cases hbk : b.projectId = k
          · simp [hbk, List.filter_cons]
          · simp [hbk, List.filter_cons]

theorem objGet_buildProjectMap_aux (k : String) :
    ∀ (ps : List ProjectRec) (m : List (String × ProjEntry)),
      objGet k (ps.foldl (fun m p => objInsert m p.id ⟨p.name, []⟩) m) =
        match ps.reverse.find? (fun p => p.id = k) with
        | some p => some ⟨p.name, []⟩
        | none => objGet k m
  | [], m => by simp
  | p :: ps, m => by
      rw [List.foldl_cons, objGet_buildProjectMap_aux k ps, List.reverse_cons,
        List.find?_append]
      cases hf : ps.reverse.find? (fun p => p.id = k) with
      | some q => simp
      | none =>
          by_cases hpk : p.id = k
          · subst hpk
            simp [objGet_insert_self]
          · have hne : k ≠ p.id := fun he => hpk he.symm
            simp [hpk, objGet_insert_other _ hne]

theorem objGet_buildProjectMap (k : String) (ps : List ProjectRec) :
    objGet k (buildProjectMap ps) =
      match ps.reverse.find? (fun p => p.id = k) with
      | some p => some ⟨p.name, []⟩
      | none => none := by
  unfold buildProjectMap
  rw [objGet_buildProjectMap_aux k ps []]
  cases hf : ps.reverse.find? (fun p => p.id = k) <;> simp [objGet]

theorem objGet_associate (ps : List ProjectRec) (bs : List BranchRec)
    (k : String) :
    objGet k (associateProjectsToBranches ps bs) =
      match ps.reverse.find? (fun p => p.id = k) with
      | some p => some ⟨p.name,
          (bs.filter (fun b => b.projectId = k)).map (fun b => b.name)⟩
      | none => none := by
  unfold associateProjectsToBranches
  rw [objGet_foldl_appendBranch k bs (buildProjectMap ps),
    objGet_buildProjectMap]
  cases hf : ps.reverse.find? (fun p => p.id = k) with
  | some p => simp
  | none => simp

theorem recordFields_length (r : CsvRec) :
    (recordFields r).length = r.branches.length + 1 := by
  simp [recordFields, List.enum_length]

theorem mathMaxFieldCounts_getD (rs : List CsvRec) (hne : rs ≠ []) :
    (mathMaxFieldCounts rs).getD 0 = maxBranches rs := by
  cases rs with
  | nil => exact absurd rfl hne
  | cons r rs =>
      have hlen : ∀ x : CsvRec, (recordFields x).length - 1 = x.branches.length := by
        intro x
        simp [recordFields_length]
      unfold mathMaxFieldCounts maxBranches
      simp only [List.map_cons, hlen, Option.getD_some, List.foldl_cons,
        Nat.zero_max]

theorem objGet_recordFields_branch (j : Nat) :
    ∀ (bs : List String) (s : Nat),
      objGet (CsvField.branchName (s + j + 1))
        ((List.enumFrom s bs).map (fun p => (CsvField.branchName (p.1 + 1), p.2))) =
        bs[j]?
  | [], s => by simp [objGet]
  | b :: bs, s => by
      rw [List.enumFrom_cons, List.map_cons]
      cases j with
      | zero => simp [objGet]
      | succ j =>
          have hne : CsvField.branchName (s + 1) ≠
              CsvField.branchName (s + (j + 1) + 1) := by
            intro h
            rw [CsvField.branchName.injEq] at h
            omega
          have ih := objGet_recordFields_branch j bs (s + 1)
          have harith : s + 1 + j + 1 = s + (j + 1) + 1 := by omega
          rw [harith] at ih
          simp [objGet, hne, ih]

theorem objGet_recordFields_projectName (r : CsvRec) :
    objGet CsvField.projectName (recordFields r) = some r.projectName := by
  simp [objGet, recordFields]

theorem objGet_recordFields_branchName (r : CsvRec) (i : Nat) :
    objGet (CsvField.branchName (i + 1)) (recordFields r) = r.branches[i]? := by
  have h := objGet_recordFields_branch i r.branches 0
  simp only [Nat.zero_add] at h
  have hne : CsvField.projectName = CsvField.branchName (i + 1) → False := by
    intro hcon
    exact CsvField.noConfusion hcon
  simp only [recordFields, objGet, if_neg hne, List.enum]
  exact h

theorem setPropertiesLoop_processes (postOutcome : String → FetchResult Unit) :
    ∀ ps : List FormattedProject,
      (setPropertiesLoop postOutcome ps).map Prod.fst = ps.map (fun p => p.id)
  | [] => rfl
  | p :: ps => by
      simp [setPropertiesLoop, setPropertiesLoop_processes postOutcome ps]

theorem collectProjectDetails_ok (allGroups : List (String × List UserRec))
    (fetch : String → FetchResult IncludedRes) :
    ∀ ps : List ProjectRec, (∀ p ∈ ps, fetch p.id ≠ FetchResult.thrown) →
      collectProjectDetails allGroups fetch ps =
        Except.ok (ps.filterMap (fun p =>
          match fetch p.id with
          | FetchResult.resp s included =>
              if s = 200 then some (mkProjectDetail allGroups p included)
              else none
          | FetchResult.thrown => none))
  | [], _ => rfl
  | p :: ps, h => by
      have hp := h p (List.mem_cons_self _ _)
      have ih := collectProjectDetails_ok allGroups fetch ps
        (fun q hq => h q (List.mem_cons_of_mem _ hq))
      cases hf : fetch p.id with
      | thrown => exact absurd hf hp
      | resp s included =>
          by_cases hs : s = 200
          · subst hs
            simp [collectProjectDetails, hf, ih, List.filterMap_cons, Except.map]
          · simp [collectProjectDetails, hf, hs, ih, List.filterMap_cons]

theorem collectProjectDetails_thrown (allGroups : List (String × List UserRec))
    (fetch : String → FetchResult IncludedRes) :
    ∀ (pre : List ProjectRec) (p : ProjectRec) (rest : List ProjectRec),
      fetch p.id = FetchResult.thrown →
      collectProjectDetails allGroups fetch (pre ++ p :: rest) =
        Except.error ()
  | [], p, rest, h => by simp [collectProjectDetails, h]
  | q :: pre, p, rest, h => by
      have ih := collectProjectDetails_thrown allGroups fetch pre p rest h
      cases hf : fetch q.id with
      | thrown => simp [collectProjectDetails, hf]
      | resp s included =>
          by_cases hs : s = 200
          · subst hs
            simp [collectProjectDetails, hf, ih, Except.map]
          · simp [collectProjectDetails, hf, hs, ih]

theorem checkExisting_halts (answer path : String)
    (hans : isAffirmative answer = false) :
    ∀ (pre rest : List (Bool × String × String)),
      (∀ e ∈ pre, e.1 = true → isAffirmative e.2.1 = true) →
      checkExisting (pre ++ (true, answer, path) :: rest) =
        ((pre.filter (fun e => e.1)).map (fun e => e.2.2), false)
  | [], rest, _ => by
      simp [checkExisting, hans]
  | (present, a2, p2) :: pre, rest, hpre => by
      cases present with
      | false =>
          have ih := checkExisting_halts answer path hans pre rest
            (fun e he h1 => hpre e (List.mem_cons_of_mem _ he) h1)
          simpa [checkExisting] using ih
      | true =>
          have ha2 : isAffirmative a2 = true :=
            hpre (true, a2, p2) (List.mem_cons_self _ _) rfl
          have ih := checkExisting_halts answer path hans pre rest
            (fun e he h1 => hpre e (List.mem_cons_of_mem _ he) h1)
          simp [checkExisting, ha2, ih]

theorem checkExisting_proceeds :
    ∀ (checks : List (Bool × String × String)),
      (∀ e ∈ checks, e.1 = true → isAffirmative e.2.1 = true) →
      checkExisting checks =
        ((checks.filter (fun e => e.1)).map (fun e => e.2.2), true)
  | [], _ => rfl
  | (present, a2, p2) :: checks, h => by
      cases present with
      | false =>
          have ih := checkExisting_proceeds checks
            (fun e he h1 => h e (List.mem_cons_of_mem _ he) h1)
          simpa [checkExisting] using ih
      | true =>
          have ha2 : isAffirmative a2 = true :=
            h (true, a2, p2) (List.mem_cons_self _ _) rfl
          have ih := checkExisting_proceeds checks
            (fun e he h1 => h e (List.mem_cons_of_mem _ he) h1)
          simp [checkExisting, ha2, ih]

/-! ## Claim theorems -/

/-- C2: credential resolution selects exactly one of three outcomes.  When
`config.password` is nonempty after trimming, exactly one POST carrying
`email` and `password` goes to the password-flow endpoint and none to the
token-flow endpoint; otherwise, when `config.accesstoken` is nonempty after
trimming, exactly one POST carrying `email` and `accesstoken` goes to the
token-flow endpoint; otherwise resolution fails with the authentication error
and the run has issued zero requests. -/
theorem credentialResolution_cases (cfg : Config) :
    (jsTrim cfg.password ≠ "" →
      authRequests cfg =
        [{ endpoint := AuthEndpoint.passwordFlow
           formData := [("email", cfg.email), ("password", cfg.password)] }]) ∧
    (jsTrim cfg.password = "" → jsTrim cfg.accesstoken ≠ "" →
      authRequests cfg =
        [{ endpoint := AuthEndpoint.tokenFlow
           formData := [("email", cfg.email), ("accesstoken", cfg.accesstoken)] }]) ∧
    (jsTrim cfg.password = "" → jsTrim cfg.accesstoken = "" →
      buildAuthRequest cfg =
        Except.error "Neither password nor access token is provided in the config." ∧
      authRequests cfg = []) := by
  refine ⟨fun h => ?_, fun h0 h => ?_, fun h0 h1 => ?_⟩
  · have hp := ne_empty_of_jsTrim_ne h
    simp [authRequests, buildAuthRequest, hp, h]
  · have ha := ne_empty_of_jsTrim_ne h
    simp [authRequests, buildAuthRequest, h0, h, ha]
  · constructor <;> simp [authRequests, buildAuthRequest, h0, h1]

/-- Witness for C2 at concrete configurations: a password-only config, an
all-whitespace password with a token, and a credential-free config. -/
theorem credentialResolution_cases_witness :
    authRequests { email := "a@b.c", password := "pw", accesstoken := "" } =
      [{ endpoint := AuthEndpoint.passwordFlow
         formData := [("email", "a@b.c"), ("password", "pw")] }] ∧
    authRequests { email := "a@b.c", password := "  ", accesstoken := "tok" } =
      [{ endpoint := AuthEndpoint.tokenFlow
         formData := [("email", "a@b.c"), ("accesstoken", "tok")] }] ∧
    buildAuthRequest { email := "a@b.c", password := "", accesstoken := " " } =
      Except.error "Neither password nor access token is provided in the config." ∧
    authRequests { email := "a@b.c", password := "", accesstoken := " " } = [] := by
  refine ⟨(credentialResolution_cases _).1 (by decide),
    (credentialResolution_cases _).2.1 (by decide) (by decide),
    (credentialResolution_cases _).2.2 (by decide) (by decide)⟩

/-- C8: the formatted record of a remote project keeps the remote
`attributes.properties` when that mapping has at least one key, substitutes
the single placeholder pair when it is empty, and copies `id`, `type`, `name`
and the branches link unchanged. -/
theorem formatProject_spec (p : RemoteProject) :
    (p.properties ≠ [] → (formatProject p).properties = p.properties) ∧
    (p.properties = [] → (formatProject p).properties = [("key", "value")]) ∧
    (formatProject p).id = p.id ∧
    (formatProject p).type = p.type ∧
    (formatProject p).name = p.name ∧
    (formatProject p).branches = p.branchesRelated := by
  refine ⟨fun h => ?_, fun h => ?_, rfl, rfl, rfl, rfl⟩
  · simp [formatProject, h]
  · simp [formatProject, h]

/-- Witness for C8 at two concrete remote projects, one with a property and
one with none. -/
theorem formatProject_spec_witness :
    (formatProject ⟨"p1", "t", "Alpha", [("env", "prod")], "u1"⟩).properties =
      [("env", "prod")] ∧
    (formatProject ⟨"p2", "t", "Beta", [], "u2"⟩).properties =
      [("key", "value")] := by
  exact ⟨(formatProject_spec _).1 (by decide), (formatProject_spec _).2.1 rfl⟩

/-- C1: for every page size `p` and every sequence of pages the endpoint
serves (each at most full, as a response to `page[limit]=p` is), the paginator
issues GET requests at offsets `0, p, 2p, ...` in strictly increasing order,
appends the items of each page in arrival order, and terminates exactly after
the first page with fewer than `p` items: on `full ++ [tail]` where every page
of `full` is exactly full and `tail` is the first short page, it performs
`full.length + 1` requests and returns the concatenation of all pages. -/
theorem paginator_spec {α : Type} (p : Nat) (full : List (List α)) (tail : List α)
    (hfull : ∀ pg ∈ full, pg.length = p) (htail : tail.length < p) :
    fetchProjectPages p 0 [] [] ((full ++ [tail]).map (FetchResult.resp 200)) =
      some (Except.ok ((full ++ [tail]).flatten,
        (List.range (full.length + 1)).map (fun i => i * p))) ∧
    ((List.range (full.length + 1)).map (fun i => i * p)).Pairwise (· < ·) := by
  constructor
  · have hmain := fetchProjectPages_ok_pages p full 0 [] []
      [FetchResult.resp 200 tail] hfull
    have hne : tail.length ≠ p := Nat.ne_of_lt htail
    rw [List.map_append, List.map_singleton, hmain]
    simp [fetchProjectPages, hne, List.range_succ]
  · have hp : 0 < p := Nat.lt_of_le_of_lt (Nat.zero_le _) htail
    exact List.Pairwise.map _ (fun a b hab => Nat.mul_lt_mul_of_pos_right hab hp)
      (List.pairwise_lt_range _)

/-- Witness for C1: the mocked endpoint of the spec serving pages of sizes
`[5,5,5,3]` at page size 5 yields the 18 concatenated items with 4 requests at
offsets 0, 5, 10, 15; a first page with fewer than 5 items ends pagination
after the single request at offset 0. -/
theorem paginator_spec_witness :
    fetchProjectPages 5 0 [] []
        ((([[0, 1, 2, 3, 4], [5, 6, 7, 8, 9], [10, 11, 12, 13, 14]] ++
          [[15, 16, 17]]) : List (List Nat)).map (FetchResult.resp 200)) =
      some (Except.ok
        ([0, 1, 2, 3, 4, 5, 6, 7, 8, 9, 10, 11, 12, 13, 14, 15, 16, 17],
          [0, 5, 10, 15])) ∧
    ([0, 1, 2, 3, 4, 5, 6, 7, 8, 9, 10, 11, 12, 13, 14, 15, 16, 17] :
      List Nat).length = 18 ∧
    ([0, 5, 10, 15] : List Nat).length = 4 ∧
    fetchProjectPages 5 0 [] []
        ((([] ++ [[0, 1, 2]]) : List (List Nat)).map (FetchResult.resp 200)) =
      some (Except.ok ([0, 1, 2], [0])) := by
  refine ⟨?_, by decide, by decide, ?_⟩
  · exact ((paginator_spec 5 [[0, 1, 2, 3, 4], [5, 6, 7, 8, 9], [10, 11, 12, 13, 14]]
      [15, 16, 17] (by decide) (by decide)).1).trans rfl
  · exact ((paginator_spec 5 [] [0, 1, 2] (by decide) (by decide)).1).trans rfl

/-- C4 counterexample: in the project pagination loop of
`src/unnamed/part_000`, a full first page followed by a thrown request error
(a transport failure, or any non-2xx status under the default axios
configuration) aborts the whole run — the accumulated first page is discarded
and no output is written — instead of degrading to "no more data" with the
accumulated items kept, as the claim states for every collection-level HTTP
error. -/
theorem pageFetchError_counterexample :
    fetchProjectPages 5 0 [] []
        [FetchResult.resp 200 [(1 : Nat), 2, 3, 4, 5], FetchResult.thrown] =
      some (Except.error ()) ∧
    some (Except.error ()) ≠
      some (Except.ok (([1, 2, 3, 4, 5] : List Nat), ([0, 5] : List Nat))) := by
  refine ⟨rfl, fun h => ?_⟩
  exact Except.noConfusion (Option.some.inj h)

/-- C4 (amended): in the branch pagination loop (whose request sits in its own
try/catch) every HTTP failure — a delivered non-200 status or a thrown error —
ends pagination as if the data were exhausted, the items of earlier pages are
kept and the run continues.  In the project pagination loop only a delivered
non-200 response degrades that way (with the earlier items kept and the failed
request offset recorded); a thrown request error instead aborts the run before
any output is written. -/
theorem pageFetchError_amended {α β : Type} (p : Nat) (full : List (List α))
    (hfull : ∀ pg ∈ full, pg.length = p)
    (full5 : List (List β)) (hfull5 : ∀ pg ∈ full5, pg.length = 500) :
    (∀ s items rest, s ≠ 200 →
      fetchProjectPages p 0 [] []
          (full.map (FetchResult.resp 200) ++ FetchResult.resp s items :: rest) =
        some (Except.ok (full.flatten,
          (List.range (full.length + 1)).map (fun i => i * p)))) ∧
    (∀ rest, fetchProjectPages p 0 [] []
          (full.map (FetchResult.resp 200) ++ FetchResult.thrown :: rest) =
        some (Except.error ())) ∧
    (∀ s items rest, s ≠ 200 →
      fetchBranchPages 0 []
          (full5.map (FetchResult.resp 200) ++ FetchResult.resp s items :: rest) =
        some full5.flatten) ∧
    (∀ rest, fetchBranchPages 0 []
          (full5.map (FetchResult.resp 200) ++ FetchResult.thrown :: rest) =
        some full5.flatten) := by
  refine ⟨fun s items rest hs => ?_, fun rest => ?_,
    fun s items rest hs => ?_, fun rest => ?_⟩
  · rw [fetchProjectPages_ok_pages p full 0 [] [] _ hfull]
    simp [fetchProjectPages, hs, List.range_succ]
  · rw [fetchProjectPages_ok_pages p full 0 [] [] _ hfull]
    simp [fetchProjectPages]
  · rw [fetchBranchPages_ok_pages full5 0 [] _ hfull5]
    simp [fetchBranchPages, hs]
  · rw [fetchBranchPages_ok_pages full5 0 [] _ hfull5]
    simp [fetchBranchPages]

/-- Witness for C4 at concrete runs: after one full page of two items at page
size 2, a delivered 404 ends project pagination keeping the two items (with
request offsets 0 and 2) while a thrown error aborts the run; in the branch
loop a 404 response and a thrown error both end pagination keeping the
accumulator. -/
theorem pageFetchError_amended_witness :
    fetchProjectPages 2 0 [] []
        [FetchResult.resp 200 [(1 : Nat), 2], FetchResult.resp 404 [9]] =
      some (Except.ok ([1, 2], [0, 2])) ∧
    fetchProjectPages 2 0 [] []
        [FetchResult.resp 200 [(1 : Nat), 2], FetchResult.thrown] =
      some (Except.error ()) ∧
    fetchBranchPages 0 [] [FetchResult.resp 404 [(7 : Nat)]] = some [] ∧
    fetchBranchPages 0 [] [(FetchResult.thrown : FetchResult Nat)] = some [] := by
  have h := pageFetchError_amended 2 [[(1 : Nat), 2]] (by decide)
    ([] : List (List Nat)) (by decide)
  refine ⟨(h.1 404 [9] [] (by decide)).trans rfl,
    (h.2.1 []).trans rfl,
    (h.2.2.1 404 [7] [] (by decide)).trans rfl,
    (h.2.2.2 []).trans rfl⟩

/-- C5 counterexample: for the authentication response whose `set-cookie`
entry is `access_token=a=b; Path=/`, the code extracts `a` — the segment of
the entry between the first and the second `=` — while the claim states the
token equals the whole substring `a=b` between `access_token=` and the next
`;`. -/
theorem tokenExtraction_counterexample :
    extractToken (some ["access_token=a=b; Path=/".toList]) none =
      Except.ok "a".toList ∧
    claimCookieToken "access_token=a=b; Path=/".toList = "a=b".toList ∧
    ("a".toList : List Char) ≠ "a=b".toList := by
  exact ⟨rfl, by decide, by decide⟩

/-- C5 (amended): the bearer token is extracted preferentially from the first
`set-cookie` entry beginning with `access_token=`, the extracted token being
the substring of that entry between `access_token=` and the next `=` or `;`,
whichever comes first; if no entry matches, or the extracted token is empty,
a nonempty `jwt` field of the response body is used; if neither location
yields a token, resolution fails with the token-not-found error. -/
theorem tokenExtraction_amended (cookies : List (List Char))
    (jwt : Option (List Char)) :
    (∀ c, cookies.find? (fun e => accessTokenMarker.isPrefixOf e) = some c →
      amendedCookieToken c ≠ [] →
      extractToken (some cookies) jwt = Except.ok (amendedCookieToken c)) ∧
    (∀ j, jwt = some j → j ≠ [] →
      (cookies.find? (fun e => accessTokenMarker.isPrefixOf e) = none ∨
        ∃ c, cookies.find? (fun e => accessTokenMarker.isPrefixOf e) = some c ∧
          amendedCookieToken c = []) →
      extractToken (some cookies) jwt = Except.ok j) ∧
    ((cookies.find? (fun e => accessTokenMarker.isPrefixOf e) = none ∨
        ∃ c, cookies.find? (fun e => accessTokenMarker.isPrefixOf e) = some c ∧
          amendedCookieToken c = []) →
      (jwt = none ∨ jwt = some []) →
      extractToken (some cookies) jwt =
        Except.error "No access token found in the response.") := by
  have hfalsy : (cookies.find? (fun e => accessTokenMarker.isPrefixOf e) = none ∨
      ∃ c, cookies.find? (fun e => accessTokenMarker.isPrefixOf e) = some c ∧
        amendedCookieToken c = []) →
      jsFalsy (cookieToken cookies) = true := by
    rintro (hfind | ⟨c, hfind, hamend⟩)
    · simp [cookieToken, hfind, jsFalsy]
    · have hpref := List.find?_some hfind
      have htok : cookieToken cookies = some (amendedCookieToken c) := by
        unfold cookieToken
        rw [hfind]
        exact cookieField_eq_amended c hpref
      rw [htok, hamend]
      rfl
  refine ⟨fun c hfind hne => ?_, fun j hj hne hc => ?_, fun hc hj => ?_⟩
  · have hpref := List.find?_some hfind
    have htok : cookieToken cookies = some (amendedCookieToken c) := by
      unfold cookieToken
      rw [hfind]
      exact cookieField_eq_amended c hpref
    have hfalse : (amendedCookieToken c).isEmpty = false := by
      simpa [List.isEmpty_iff] using hne
    dsimp only [extractToken]
    rw [htok]
    simp [jsFalsy, hfalse]
  · have h0 := hfalsy hc
    subst hj
    have hfalse : j.isEmpty = false := by simpa [List.isEmpty_iff] using hne
    dsimp only [extractToken]
    rw [h0]
    simp [jsFalsy, hfalse]
  · have h0 := hfalsy hc
    have h0m : (match cookieToken cookies with
        | none => true
        | some s => s.isEmpty) = true := h0
    rcases hj with hj | hj <;> subst hj <;>
      · dsimp only [extractToken]
        rw [h0]
        simp [jsFalsy, h0m]

/-- Witness for C5 at concrete responses: the cookie entry
`access_token=tok123; Path=/` yields `tok123` even when a `jwt` body field is
present, an absent cookie falls back to the `jwt` body field, and a response
with neither fails with the token-not-found error. -/
theorem tokenExtraction_amended_witness :
    extractToken (some ["access_token=tok123; Path=/".toList])
        (some "jwtTok".toList) = Except.ok "tok123".toList ∧
    extractToken (some ["sessionid=xyz".toList]) (some "jwtTok".toList) =
      Except.ok "jwtTok".toList ∧
    extractToken (some ["sessionid=xyz".toList]) none =
      Except.error "No access token found in the response." := by
  refine ⟨?_, ?_, ?_⟩
  · exact ((tokenExtraction_amended _ _).1 "access_token=tok123; Path=/".toList
      (by decide) (by decide)).trans rfl
  · exact (tokenExtraction_amended _ _).2.1 "jwtTok".toList rfl (by decide)
      (Or.inl (by decide))
  · exact (tokenExtraction_amended _ _).2.2 (Or.inl (by decide)) (Or.inl rfl)

/-- C6: the project-to-branch correlation produces a mapping whose key set is
exactly the project ids of the project list (a project with zero matching
branches keeps an empty branch list), where the entry of a key carries the
name of a project with that id and the names of exactly those branches whose
owning project id equals the key, in branch-list order; a branch whose project
id is not a key is silently dropped, leaving no entry for it. -/
theorem projectBranchCorrelation (ps : List ProjectRec) (bs : List BranchRec)
    (k : String) :
    ((objGet k (associateProjectsToBranches ps bs)).isSome =
      ps.any (fun p => p.id = k)) ∧
    (∀ e, objGet k (associateProjectsToBranches ps bs) = some e →
      e.branches =
        (bs.filter (fun b => b.projectId = k)).map (fun b => b.name) ∧
      ∃ p ∈ ps, p.id = k ∧ p.name = e.name) ∧
    (ps.any (fun p => p.id = k) = false →
      objGet k (associateProjectsToBranches ps bs) = none) := by
  have hchar := objGet_associate ps bs k
  refine ⟨?_, fun e he => ?_, fun hnone => ?_⟩
  · rw [hchar]
    cases hf : ps.reverse.find? (fun p => p.id = k) with
    | some p =>
        have hmem : p ∈ ps := List.mem_reverse.mp (List.mem_of_find?_eq_some hf)
        have hpk : p.id = k := by simpa using List.find?_some hf
        have : ps.any (fun p => p.id = k) = true :=
          List.any_eq_true.mpr ⟨p, hmem, by simpa using hpk⟩
        rw [this]
        rfl
    | none =>
        have : ps.any (fun p => p.id = k) = false := by
          rw [List.any_eq_false]
          intro x hx
          exact List.find?_eq_none.mp hf x (List.mem_reverse.mpr hx)
        rw [this]
        rfl
  · rw [hchar] at he
    cases hf : ps.reverse.find? (fun p => p.id = k) with
    | none =>
        rw [hf] at he
        exact absurd he (by simp)
    | some p =>
        rw [hf] at he
        have hmem : p ∈ ps := List.mem_reverse.mp (List.mem_of_find?_eq_some hf)
        have hpk : p.id = k := by simpa using List.find?_some hf
        have he2 := Option.some.inj he
        refine ⟨?_, p, hmem, hpk, ?_⟩
        · rw [← he2]
        · rw [← he2]
  · rw [hchar]
    cases hf : ps.reverse.find? (fun p => p.id = k) with
    | none => rfl
    | some p =>
        have hmem : p ∈ ps := List.mem_reverse.mp (List.mem_of_find?_eq_some hf)
        have hpk : p.id = k := by simpa using List.find?_some hf
        have := List.any_eq_false.mp hnone p hmem
        exact absurd (by simpa using hpk) this

/-- Witness for C6 at the spec example: projects `[(p1, Alpha)]` and branches
`[(main, p1), (dev, p9)]` correlate to `main` as the sole branch under `p1`,
while the branch referencing the unknown project `p9` is dropped without an
entry. -/
theorem projectBranchCorrelation_witness :
    (∃ p ∈ ([⟨"p1", "Alpha"⟩] : List ProjectRec), p.id = "p1" ∧ p.name = "Alpha") ∧
    objGet "p1" (associateProjectsToBranches [⟨"p1", "Alpha"⟩]
      [⟨"main", "p1"⟩, ⟨"dev", "p9"⟩]) = some ⟨"Alpha", ["main"]⟩ ∧
    objGet "p9" (associateProjectsToBranches [⟨"p1", "Alpha"⟩]
      [⟨"main", "p1"⟩, ⟨"dev", "p9"⟩]) = none := by
  refine ⟨?_, by decide, ?_⟩
  · exact ((projectBranchCorrelation [⟨"p1", "Alpha"⟩]
      [⟨"main", "p1"⟩, ⟨"dev", "p9"⟩] "p1").2.1 ⟨"Alpha", ["main"]⟩ (by decide)).2
  · exact (projectBranchCorrelation [⟨"p1", "Alpha"⟩]
      [⟨"main", "p1"⟩, ⟨"dev", "p9"⟩] "p9").2.2 (by decide)

/-- C7: for a non-empty collection of correlated records the exported CSV
field list is the project-name column followed by exactly
`maxBranches rs` branch columns — the maximum branch-field count over all
records, computed before writing — and the row of any record is its name
followed by one cell per branch column, where every column beyond the record
branch count is blank. -/
theorem csvExport_spec (rs : List CsvRec) (hne : rs ≠ []) :
    csvFields rs = CsvField.projectName ::
      (List.range (maxBranches rs)).map (fun i => CsvField.branchName (i + 1)) ∧
    (∀ r : CsvRec, csvRow (csvFields rs) r =
      r.projectName :: (List.range (maxBranches rs)).map
        (fun i => (r.branches[i]?).getD "")) ∧
    (∀ r : CsvRec, ∀ i, r.branches.length ≤ i → i < maxBranches rs →
      (csvRow (csvFields rs) r)[i + 1]? = some "") := by
  have hfields : csvFields rs = CsvField.projectName ::
      (List.range (maxBranches rs)).map (fun i => CsvField.branchName (i + 1)) := by
    unfold csvFields
    rw [mathMaxFieldCounts_getD rs hne]
  have hrow : ∀ r : CsvRec, csvRow (csvFields rs) r =
      r.projectName :: (List.range (maxBranches rs)).map
        (fun i => (r.branches[i]?).getD "") := by
    intro r
    rw [hfields]
    unfold csvRow
    rw [List.map_cons, objGet_recordFields_projectName, List.map_map]
    congr 1
    refine List.map_congr_left fun i _ => ?_
    simp [objGet_recordFields_branchName]
  refine ⟨hfields, hrow, fun r i hlen hmax => ?_⟩
  rw [hrow r]
  rw [List.getElem?_cons_succ, List.getElem?_map, List.getElem?_range hmax]
  simp [List.getElem?_eq_none hlen]

/-- Witness for C7 at a concrete collection: records `(A, [m, d])` and
`(B, [])` yield the header `projectName, branchName1, branchName2`; the row of
`B` is its name followed by two blank cells, the surplus columns blank. -/
theorem csvExport_spec_witness :
    csvFields [⟨"A", ["m", "d"]⟩, ⟨"B", []⟩] =
      [CsvField.projectName, CsvField.branchName 1, CsvField.branchName 2] ∧
    csvRow (csvFields [⟨"A", ["m", "d"]⟩, ⟨"B", []⟩]) ⟨"B", []⟩ =
      ["B", "", ""] ∧
    (csvRow (csvFields [⟨"A", ["m", "d"]⟩, ⟨"B", []⟩]) ⟨"B", []⟩)[1]? =
      some "" := by
  have h := csvExport_spec [⟨"A", ["m", "d"]⟩, ⟨"B", []⟩] (by decide)
  refine ⟨h.1.trans (by decide), (h.2.1 ⟨"B", []⟩).trans (by decide), ?_⟩
  exact h.2.2 ⟨"B", []⟩ 0 (by decide) (by decide)

/-- C9 counterexample: in the run of `src/unnamed/part_000` where both
`projectList.json` and `projectList.csv` exist and the operator confirms the
first prompt and refuses the second, the run halts cleanly with zero network
requests, yet `projectList.json` has already been deleted — contradicting the
claim that a non-affirmative answer leaves every file untouched. -/
theorem destructivePrompt_counterexample :
    checkExisting
        [(true, "yes", "projectList.json"), (true, "no", "projectList.csv")] =
      (["projectList.json"], false) ∧
    (["projectList.json"] : List String) ≠ [] := by
  exact ⟨by decide, by decide⟩

/-- C9 (amended): a non-affirmative answer (anything other than `yes`/`y`
case-insensitively) to the prompt of an existing output file halts the run
cleanly before any network request, deleting neither the prompted file nor any
later one; the files whose earlier prompts in the same run were answered
affirmatively have already been deleted at that point (when the refused prompt
is the first one for an existing file, nothing at all is deleted).  When every
existing file is confirmed, each is deleted and the run proceeds. -/
theorem destructivePrompt_amended (checks : List (Bool × String × String)) :
    (∀ pre answer path rest,
      checks = pre ++ (true, answer, path) :: rest →
      isAffirmative answer = false →
      (∀ e ∈ pre, e.1 = true → isAffirmative e.2.1 = true) →
      checkExisting checks =
        ((pre.filter (fun e => e.1)).map (fun e => e.2.2), false)) ∧
    ((∀ e ∈ checks, e.1 = true → isAffirmative e.2.1 = true) →
      checkExisting checks =
        ((checks.filter (fun e => e.1)).map (fun e => e.2.2), true)) := by
  constructor
  · intro pre answer path rest hchecks hans hpre
    subst hchecks
    exact checkExisting_halts answer path hans pre rest hpre
  · exact checkExisting_proceeds checks

/-- Witness for C9 at concrete runs: a refused second prompt (after a
case-insensitive `YES`) halts with only the first file deleted, and a fully
confirmed run deletes every existing file and proceeds. -/
theorem destructivePrompt_amended_witness :
    checkExisting [(false, "", "usersList.json"), (true, "YES", "projectList.json"),
        (true, "No", "projectDetails.csv"), (true, "y", "groupsList.json")] =
      (["projectList.json"], false) ∧
    checkExisting [(true, "Y", "projectList.json"), (false, "", "projectList.csv")] =
      (["projectList.json"], true) := by
  constructor
  · exact ((destructivePrompt_amended _).1
      [(false, "", "usersList.json"), (true, "YES", "projectList.json")]
      "No" "projectDetails.csv" [(true, "y", "groupsList.json")]
      rfl (by decide) (by decide)).trans (by decide)
  · exact ((destructivePrompt_amended _).2 (by decide)).trans (by decide)

/-- C3 counterexample: in the role-assignments loop of
`src/src/getProjectUserInformation.mjs`, when the sub-fetch for project `p1`
succeeds but the one for `p2` throws an HTTP error (as axios does for a
non-2xx response or a transport failure), the whole run aborts and no output
is written — the successful contribution of `p1` is lost, instead of the
failure being only logged with that one item omitted. -/
theorem perItemFailure_counterexample :
    (fun pid => if pid = "p1" then FetchResult.resp 200 ([] : List IncludedRes)
      else FetchResult.thrown) "p1" = FetchResult.resp 200 [] ∧
    (fun pid => if pid = "p1" then FetchResult.resp 200 ([] : List IncludedRes)
      else FetchResult.thrown) "p2" = FetchResult.thrown ∧
    collectProjectDetails []
      (fun pid => if pid = "p1" then FetchResult.resp 200 ([] : List IncludedRes)
        else FetchResult.thrown)
      [⟨"p1", "Alpha"⟩, ⟨"p2", "Beta"⟩] = Except.error () ∧
    (collectProjectDetails []
      (fun pid => if pid = "p1" then FetchResult.resp 200 ([] : List IncludedRes)
        else FetchResult.thrown)
      [⟨"p1", "Alpha"⟩, ⟨"p2", "Beta"⟩]).isOk = false := by
  refine ⟨by decide, by decide, rfl, rfl⟩

/-- C3 (amended): in the per-project property-set loop, whose request sits in
its own try/catch, every per-item failure is only logged and the loop still
processes every project in order.  In the role-assignments loop a per-item
sub-fetch that yields a delivered non-200 response is logged and that item is
omitted, the run continuing and writing output with exactly the contributions
of the items whose sub-fetch returned 200, in order; but a per-item sub-fetch
that throws aborts the run with no output written. -/
theorem perItemFailure_amended (allGroups : List (String × List UserRec))
    (fetch : String → FetchResult IncludedRes)
    (postOutcome : String → FetchResult Unit)
    (propProjects : List FormattedProject) (ps : List ProjectRec) :
    ((setPropertiesLoop postOutcome propProjects).map Prod.fst =
      propProjects.map (fun p => p.id)) ∧
    ((∀ p ∈ ps, fetch p.id ≠ FetchResult.thrown) →
      collectProjectDetails allGroups fetch ps =
        Except.ok (ps.filterMap (fun p =>
          match fetch p.id with
          | FetchResult.resp s included =>
              if s = 200 then some (mkProjectDetail allGroups p included)
              else none
          | FetchResult.thrown => none))) ∧
    (∀ pre p rest, ps = pre ++ p :: rest →
      fetch p.id = FetchResult.thrown →
      collectProjectDetails allGroups fetch ps = Except.error ()) := by
  refine ⟨setPropertiesLoop_processes postOutcome propProjects,
    collectProjectDetails_ok allGroups fetch ps,
    fun pre p rest hps hf => ?_⟩
  subst hps
  exact collectProjectDetails_thrown allGroups fetch pre p rest hf

/-- Witness for C3 at concrete runs: the property-set loop logs both projects
even though the second POST throws; the role loop with a 404 on `b` still
returns output carrying exactly the detail of `a`; the role loop with a
thrown error on `z` aborts with no output. -/
theorem perItemFailure_amended_witness :
    (setPropertiesLoop
      (fun pid => if pid = "x" then FetchResult.resp 200 ([] : List Unit)
        else FetchResult.thrown)
      [⟨"x", "t", [], "X", "u"⟩, ⟨"y", "t", [], "Y", "u"⟩]).map Prod.fst =
      ["x", "y"] ∧
    collectProjectDetails []
      (fun pid => if pid = "a" then FetchResult.resp 200 ([] : List IncludedRes)
        else FetchResult.resp 404 [])
      [⟨"a", "A"⟩, ⟨"b", "B"⟩] =
      Except.ok [mkProjectDetail [] ⟨"a", "A"⟩ []] ∧
    collectProjectDetails []
      (fun pid => if pid = "a" then FetchResult.resp 200 ([] : List IncludedRes)
        else FetchResult.thrown)
      [⟨"a", "A"⟩, ⟨"z", "Z"⟩] = Except.error () := by
  refine ⟨?_, ?_, ?_⟩
  · exact ((perItemFailure_amended [] (fun _ => FetchResult.thrown)
      (fun pid => if pid = "x" then FetchResult.resp 200 ([] : List Unit)
        else FetchResult.thrown)
      [⟨"x", "t", [], "X", "u"⟩, ⟨"y", "t", [], "Y", "u"⟩] []).1).trans (by decide)
  · exact ((perItemFailure_amended []
      (fun pid => if pid = "a" then FetchResult.resp 200 ([] : List IncludedRes)
        else FetchResult.resp 404 [])
      (fun _ => FetchResult.thrown) []
      [⟨"a", "A"⟩, ⟨"b", "B"⟩]).2.1 (by decide)).trans rfl
  · exact (perItemFailure_amended []
      (fun pid => if pid = "a" then FetchResult.resp 200 ([] : List IncludedRes)
        else FetchResult.thrown)
      (fun _ => FetchResult.thrown) []
      [⟨"a", "A"⟩, ⟨"z", "Z"⟩]).2.2 [⟨"a", "A"⟩] ⟨"z", "Z"⟩ [] rfl (by decide)

/-- C10 counterexample: a user whose `relationships.groups.data` lists the
same group id twice is pushed twice into that group member list, so the
member list exported for the group carries the user twice, while the claim
describes the list of all users whose group-id list contains the id — which
carries each such user once. -/
theorem groupMembership_counterexample :
    objGet "g1" (mkProjectDetail
        (buildAllGroups [⟨"u1", "Ann", "ann@x", ["g1", "g1"]⟩])
        ⟨"p1", "Alpha"⟩ [⟨"groups", "g1", "", "", "Team", []⟩]).groups =
      some ⟨"Team", [⟨"u1", "Ann", "ann@x", ["g1", "g1"]⟩,
        ⟨"u1", "Ann", "ann@x", ["g1", "g1"]⟩]⟩ ∧
    ([⟨"u1", "Ann", "ann@x", ["g1", "g1"]⟩] : List UserRec).filter
      (fun u => "g1" ∈ u.groupIds) = [⟨"u1", "Ann", "ann@x", ["g1", "g1"]⟩] ∧
    ([⟨"u1", "Ann", "ann@x", ["g1", "g1"]⟩, ⟨"u1", "Ann", "ann@x", ["g1", "g1"]⟩] :
      List UserRec) ≠ [⟨"u1", "Ann", "ann@x", ["g1", "g1"]⟩] := by
  refine ⟨by decide, by decide, by decide⟩

/-- C10 (amended): provided every fetched user lists each group id at most
once, every group entry of a project detail record carries the id and name of
a group resource of that project role-assignments response, and its member
list equals the list of all users account-wide (from the separate paginated
/users fetch) whose group-id list contains that group id, in user-fetch order
— not merely the users included in that response — and is empty when no
fetched user references the group. -/
theorem groupMembership_amended (users : List UserRec)
    (hnodup : ∀ u ∈ users, u.groupIds.Nodup)
    (p : ProjectRec) (included : List IncludedRes) :
    ∀ kv ∈ (mkProjectDetail (buildAllGroups users) p included).groups,
      (∃ g ∈ included.filter (fun item => item.rtype = "groups"),
        kv.1 = g.id ∧ kv.2.groupName = g.groupname) ∧
      kv.2.members = users.filter (fun u => kv.1 ∈ u.groupIds) := by
  intro kv hkv
  rw [mkProjectDetail_groups] at hkv
  rcases foldl_objInsert_mem IncludedRes.id
      (fun g => ({ groupName := g.groupname
                   members := (objGet g.id (buildAllGroups users)).getD [] } :
        GroupMembers))
      (included.filter (fun item => item.rtype = "groups")) [] kv hkv with
    h | ⟨g, hg, hkv2⟩
  · exact absurd h (List.not_mem_nil kv)
  · subst hkv2
    refine ⟨⟨g, hg, rfl, rfl⟩, ?_⟩
    simpa using objGet_buildAllGroups g.id users hnodup

/-- Witness for C10 at a concrete run: the account users are Ann (in group
`g1`) and Bob (in none); the role-assignments response of the project includes
the group `g1` and only the user resource of Bob, yet the exported member list
of `g1` is exactly Ann — the account-wide inversion, not the response
contents. -/
theorem groupMembership_amended_witness :
    ("g1", (⟨"Team", [⟨"u1", "Ann", "a@x", ["g1"]⟩]⟩ : GroupMembers)) ∈
      (mkProjectDetail
        (buildAllGroups [⟨"u1", "Ann", "a@x", ["g1"]⟩, ⟨"u2", "Bob", "b@x", []⟩])
        ⟨"p1", "Alpha"⟩
        [⟨"groups", "g1", "", "", "Team", []⟩,
          ⟨"users", "u2", "Bob", "b@x", "", []⟩]).groups ∧
    ([⟨"u1", "Ann", "a@x", ["g1"]⟩, ⟨"u2", "Bob", "b@x", []⟩] :
      List UserRec).filter (fun u => "g1" ∈ u.groupIds) =
      [⟨"u1", "Ann", "a@x", ["g1"]⟩] ∧
    (⟨"Team", [⟨"u1", "Ann", "a@x", ["g1"]⟩]⟩ : GroupMembers).members =
      ([⟨"u1", "Ann", "a@x", ["g1"]⟩, ⟨"u2", "Bob", "b@x", []⟩] :
        List UserRec).filter (fun u => "g1" ∈ u.groupIds) := by
  refine ⟨by decide, by decide, ?_⟩
  have h := groupMembership_amended
    [⟨"u1", "Ann", "a@x", ["g1"]⟩, ⟨"u2", "Bob", "b@x", []⟩] (by decide)
    ⟨"p1", "Alpha"⟩
    [⟨"groups", "g1", "", "", "Team", []⟩, ⟨"users", "u2", "Bob", "b@x", "", []⟩]
    ("g1", ⟨"Team", [⟨"u1", "Ann", "a@x", ["g1"]⟩]⟩) (by decide)
  exact h.2

end Polaris
